import Mathlib

/-!
Verification of `src/model/audio_transcriber.py` (Project WISE, Wearable-ML).

The Python module exposes one primary operation, `transcribe`, which

  1. uploads a WAV file to cloud storage in 256 KB chunks, reporting
     `('upload', fraction)` progress before the first chunk, after each
     chunk, and once finished (lines 66-76);
  2. submits a long-running recognition request and polls it once per
     second, reporting `('transcribe', progress_percent * .01)` on each
     poll while the operation is not done (lines 78-91);
  3. deletes the uploaded blob (line 93), then retrieves the result and
     re-segments the word/timestamp stream into subtitle lines using a
     max-words-per-line rule (12) and a max-gap rule (500 ms), writing
     each line in SRT format (lines 95-121);
  4. formats millisecond offsets as `HH:MM:SS,mmm` via `_format_time`
     (lines 123-128).

This file gives a shallow embedding of that code: the segmentation loop
becomes a fold over an explicit state record, the upload and polling
loops become event-list producers over abstracted external collaborators
(the storage transport and the recognition engine), and the time
formatter becomes a function on `ℕ` producing a `String` built from
explicit decimal digits (modelling Python's `f'{n:02}'` zero-padding).
-/

namespace AudioTranscriber

/-- One recognized word with its timing, in milliseconds
(`word_data.word`, `word_start_time`, `word_end_time` in the source). -/
structure WordSpan where
  text : String
  start_ms : ℕ
  end_ms : ℕ
deriving Repr, DecidableEq

/-- One emitted subtitle block. The source accumulates only the word
strings (`line.append(word_data.word)`); here the accumulator keeps the
full spans so that theorems can relate a line to the words it contains.
The timing fields are taken from the loop's state variables
(`line_start_time`, `line_end_time`) exactly as in `_write_line` calls. -/
structure SubtitleLine where
  index : ℕ
  start_ms : ℕ
  end_ms : ℕ
  words : List WordSpan
deriving Repr, DecidableEq

/-- Source constant `_MAX_NUM_WORDS_IN_LINE = 12`. -/
def MAX_NUM_WORDS_IN_LINE : ℕ := 12

/-- Source constant `_LINE_INTERVAL = 500` (ms). -/
def LINE_INTERVAL : ℕ := 500

/-- Source constant: `upload.ResumableUpload(_UPLOAD_URL, 2**18)`, 256 KB chunks. -/
def UPLOAD_CHUNK_SIZE : ℕ := 2 ^ 18

/-- The mutable state of the segmentation loop (source lines 95-97):
`line` (the accumulator), `line_index`, `line_start_time`,
`line_end_time`, plus the list of lines written out so far. -/
structure SegState where
  line : List WordSpan
  line_index : ℕ
  line_start_time : ℕ
  line_end_time : ℕ
  out : List SubtitleLine
deriving Repr, DecidableEq

/-- Initial loop state: `line = []`, `line_index = 1`,
`line_start_time = line_end_time = 0` (source lines 95-97). -/
def initSegState : SegState := ⟨[], 1, 0, 0, []⟩

/-- The SubtitleLine written by `_write_line(target, line, line_index,
line_start_time, line_end_time)` at a given state. -/
def mkLine (s : SegState) : SubtitleLine :=
  ⟨s.line_index, s.line_start_time, s.line_end_time, s.line⟩

/-- The flush condition of source lines 105-106:
`len(line) == _MAX_NUM_WORDS_IN_LINE or line and
 word_start_time - line_end_time >= _LINE_INTERVAL`.
Python parses this as `A or (B and C)`; the subtraction is over
unbounded Python integers, so it is taken in `ℤ`. -/
def flushCond (maxWords gapMs : ℕ) (s : SegState) (w : WordSpan) : Prop :=
  s.line.length = maxWords ∨
    (s.line ≠ [] ∧ (gapMs : ℤ) ≤ (w.start_ms : ℤ) - (s.line_end_time : ℤ))

instance (maxWords gapMs : ℕ) (s : SegState) (w : WordSpan) :
    Decidable (flushCond maxWords gapMs s w) := by
  unfold flushCond; infer_instance

/-- One iteration of the inner word loop (source lines 100-113): possibly
flush the accumulator as a line, then append the word and advance
`line_end_time`. -/
def segStep (maxWords gapMs : ℕ) (s : SegState) (w : WordSpan) : SegState :=
  if flushCond maxWords gapMs s w then
    { line := [w], line_index := s.line_index + 1, line_start_time := w.start_ms,
      line_end_time := w.end_ms, out := s.out ++ [mkLine s] }
  else
    { s with line := s.line ++ [w], line_end_time := w.end_ms }

/-- Running the word loop over the whole (flattened) word stream. -/
def segLoop (maxWords gapMs : ℕ) (ws : List WordSpan) : SegState :=
  ws.foldl (segStep maxWords gapMs) initSegState

/-- The full segmentation of source lines 95-116: run the loop, then
`if line: _write_line(...)` emits the final non-empty accumulator. -/
def segment (maxWords gapMs : ℕ) (ws : List WordSpan) : List SubtitleLine :=
  let s := segLoop maxWords gapMs ws
  if s.line = [] then s.out else s.out ++ [mkLine s]

/-- The word stream consumed by the segmentation loop: the source
iterates `for res in operation.result().results: for word_data in
res.alternatives[0].words`, i.e. the concatenation of the first
alternative's words over all results. -/
def wordStream (results : List (List (List WordSpan))) : List WordSpan :=
  (results.map (fun alternatives => alternatives.headD [])).flatten

/-- Modelled from the spec's §4.1 algorithm description, for comparison
with the code-derived `segment`: for each incoming word, decide before
appending it whether to flush — flush if the accumulator already holds
exactly `max_words_per_line` words, or if it is non-empty and
`word.start_ms - line_end_ms ≥ max_gap_ms`; on flush, emit a line with
the next sequential index, clear the accumulator and set the pending
line-start to the current word's `start_ms`; then append the word and
set line-end to its `end_ms`; after exhaustion, a non-empty accumulator
is emitted as one final line, and an empty stream yields no lines. -/
def segSpecLoop (maxWords gapMs : ℕ) (acc : List WordSpan)
    (idx lineStart lineEnd : ℕ) : List WordSpan → List SubtitleLine
  | [] => if acc = [] then [] else [⟨idx, lineStart, lineEnd, acc⟩]
  | w :: rest =>
    if acc.length = maxWords ∨
        (acc ≠ [] ∧ (gapMs : ℤ) ≤ (w.start_ms : ℤ) - (lineEnd : ℤ)) then
      ⟨idx, lineStart, lineEnd, acc⟩ ::
        segSpecLoop maxWords gapMs [w] (idx + 1) w.start_ms w.end_ms rest
    else
      segSpecLoop maxWords gapMs (acc ++ [w]) idx lineStart w.end_ms rest

/-- The spec's segmentation, started from an empty accumulator with
index 1 (initial timestamps are 0 as in the source's lines 95-97). -/
def segmentSpec (maxWords gapMs : ℕ) (ws : List WordSpan) : List SubtitleLine :=
  segSpecLoop maxWords gapMs [] 1 0 0 ws

/-- Which of the two flush tests fires: Python's `A or B` evaluates `A`
(the word-count test) first and short-circuits, so the gap reason is
reported only when the count test failed. -/
inductive FlushReason where
  | count
  | gap
deriving Repr, DecidableEq

/-- The reason the flush condition of lines 105-106 fires (if it does),
respecting the left-to-right short-circuit evaluation of `or`. -/
def flushReason (maxWords gapMs : ℕ) (s : SegState) (w : WordSpan) :
    Option FlushReason :=
  if s.line.length = maxWords then some FlushReason.count
  else if s.line ≠ [] ∧ (gapMs : ℤ) ≤ (w.start_ms : ℤ) - (s.line_end_time : ℤ) then
    some FlushReason.gap
  else none

/-- Well-formedness of one emitted line: it is non-empty, respects the
word cap, its `end_ms` is its last word's end, and its `start_ms` is its
first word's start except on the very first line, whose `start_ms` is
the loop's initial value 0. -/
def LineOK (maxWords : ℕ) (l : SubtitleLine) : Prop :=
  l.words ≠ [] ∧ l.words.length ≤ maxWords ∧
  (l.words.getLast?).map WordSpan.end_ms = some l.end_ms ∧
  (l.index = 1 → l.start_ms = 0) ∧
  (l.index ≠ 1 → (l.words.head?).map WordSpan.start_ms = some l.start_ms)

/-- Loop invariant for the line indices: `line_index` is always one more
than the number of lines written, and the written indices are `1..n`. -/
def SegInvIdx (s : SegState) : Prop :=
  s.line_index = s.out.length + 1 ∧
  s.out.map SubtitleLine.index = List.range' 1 s.out.length

/-- Loop invariant for the timing and cap bookkeeping. -/
def SegInvMain (maxWords : ℕ) (s : SegState) : Prop :=
  (s.line ≠ [] → (s.line.getLast?).map WordSpan.end_ms = some s.line_end_time) ∧
  (s.line_index = 1 → s.line_start_time = 0) ∧
  (s.line_index ≠ 1 → (s.line.head?).map WordSpan.start_ms = some s.line_start_time) ∧
  s.line.length ≤ maxWords ∧
  (∀ l ∈ s.out, LineOK maxWords l)

/-! ### Time formatting (`_format_time`, source lines 123-128) -/

/-- Decimal digits of `n`, most significant first, with explicit fuel for
structural recursion (the fuel is consumed once per digit, so any
`fuel ≥ n` is enough; `decDigits` passes `n` itself). -/
def decDigitsGo : ℕ → ℕ → List ℕ
  | 0, n => [n % 10]
  | fuel + 1, n => if n < 10 then [n] else decDigitsGo fuel (n / 10) ++ [n % 10]

/-- Decimal digits of `n`, most significant first. -/
def decDigits (n : ℕ) : List ℕ := decDigitsGo n n

/-- One decimal digit as a character. -/
def digitChar (d : ℕ) : Char := Char.ofNat (48 + d)

/-- Python's zero-padded decimal formatting `f'{n:0width}'`: the decimal
digits of `n`, left-padded with `'0'` up to `width`. -/
def padNum (width n : ℕ) : String :=
  let ds := (decDigits n).map digitChar
  String.mk (List.replicate (width - ds.length) '0' ++ ds)

/-- Source `_format_time` (lines 123-128):
`h = millis // 3_600_000`, `m = millis // 60_000 % 60`,
`s = millis // 1_000 % 60`, `ms = millis % 1_000`, rendered as
`f'{h:02}:{m:02}:{s:02},{ms:03}'`. -/
def formatTime (millis : ℕ) : String :=
  let h := millis / (3600 * 10 ^ 3)
  let m := millis / (60 * 10 ^ 3) % 60
  let s := millis / 10 ^ 3 % 60
  let ms := millis % 10 ^ 3
  padNum 2 h ++ ":" ++ padNum 2 m ++ ":" ++ padNum 2 s ++ "," ++ padNum 3 ms

/-! ### Upload progress (source lines 66-76) -/

/-- A progress event: `(phase, fraction)` as passed to
`progress_callback`. Fractions are modelled in `ℚ`. -/
abbrev ProgressEvent := String × ℚ

/-- The chunked-upload loop body (source lines 72-75): while the upload
is not finished (`bytes < total`), transmit the next chunk — which
advances `bytes_uploaded` to `min (bytes + chunkSize) total` — and
report `bytes_uploaded / total_bytes`. Structural fuel makes the
recursion well-founded; each step uploads at least one byte when
`0 < chunkSize`, so `fuel = total` suffices (see `uploadFracs`). -/
def uploadLoopGo : ℕ → ℕ → ℕ → ℕ → List ℚ
  | 0, _, _, _ => []
  | fuel + 1, chunkSize, total, bytes =>
    if bytes < total then
      let b := min (bytes + chunkSize) total
      ((b : ℚ) / (total : ℚ)) :: uploadLoopGo fuel chunkSize total b
    else []

/-- The fractions reported inside the upload while-loop, in order. -/
def uploadFracs (chunkSize total : ℕ) : List ℚ :=
  uploadLoopGo total chunkSize total 0

/-- All `('upload', ·)` events of one call, in order (source lines
71-76): `progress_callback('upload', 0)` after initiation, one event per
transmitted chunk, then `progress_callback('upload', 1)` after the loop. -/
def uploadEvents (chunkSize total : ℕ) : List ProgressEvent :=
  ("upload", (0 : ℚ)) :: (uploadFracs chunkSize total).map (fun q => ("upload", q))
    ++ [("upload", (1 : ℚ))]

/-! ### Transcription polling (source lines 86-91) -/

/-- What the remote long-running recognition operation is observed to do:
`percents` is the sequence of `metadata.progress_percent` values read on
the polls at which `done()` was still false (after the last of them,
`done()` returns true), and `result` is `some words` when
`operation.result()` yields a word stream, `none` when the operation
failed and `operation.result()` raises. -/
structure Operation where
  percents : List ℤ
  result : Option (List WordSpan)

/-- All `('transcribe', ·)` events of one call, in order: the polling
loop (lines 88-91) runs `progress_callback('transcribe',
operation.metadata.progress_percent * .01)` once per not-yet-done poll
and emits nothing after `done()` turns true. -/
def transcribeEvents (percents : List ℤ) : List ProgressEvent :=
  percents.map (fun p : ℤ => ("transcribe", (p : ℚ) / 100))

/-! ### The pipeline (`transcribe`, source lines 53-116) -/

/-- The error conditions distinguishable in the embedding:
`invalidInput` is the `FileNotFoundError` raised by
`open(source_audio_path, 'rb')`, and `recognitionFailure` is the error
raised by `operation.result()` on a failed operation. -/
inductive TranscribeError where
  | invalidInput
  | recognitionFailure
deriving Repr, DecidableEq

/-- The externally observable actions of one `transcribe` call, in
program order: initiating the resumable upload (the first network call,
line 70), each progress-callback invocation, submitting the recognition
request (line 86), deleting the uploaded blob (line 93), and writing one
subtitle line to the target file (lines 107 and 115). -/
inductive PipeAction where
  | initiateUpload
  | progress (phase : String) (fraction : ℚ)
  | submitRecognition
  | deleteBlob
  | writeLine (l : SubtitleLine)
deriving Repr, DecidableEq

/-- The trace and outcome of one `transcribe` call. `sourceExists`
abstracts whether `open(source_audio_path, 'rb')` succeeds: the lines
before it (62-68) only build local objects, so when the source is
missing the call raises before any network action and before any
callback. Otherwise the call uploads (initiate, then the upload events),
submits recognition, polls (the transcribe events), deletes the blob
(line 93, directly after the polling loop), and only then calls
`operation.result()` (line 99), which on failure raises after the blob
deletion; on success the word stream is segmented and written. -/
def transcribeRun (sourceExists : Bool) (chunkSize totalBytes : ℕ)
    (op : Operation) : List PipeAction × Option TranscribeError :=
  if sourceExists then
    let acts := PipeAction.initiateUpload ::
      (uploadEvents chunkSize totalBytes).map (fun e => PipeAction.progress e.1 e.2)
      ++ [PipeAction.submitRecognition]
      ++ (transcribeEvents op.percents).map (fun e => PipeAction.progress e.1 e.2)
      ++ [PipeAction.deleteBlob]
    match op.result with
    | none => (acts, some TranscribeError.recognitionFailure)
    | some words =>
        (acts ++ (segment MAX_NUM_WORDS_IN_LINE LINE_INTERVAL words).map
          PipeAction.writeLine, none)
  else ([], some TranscribeError.invalidInput)



/-! ### The segmentation loop refines the spec's algorithm -/

/-- The while-loop plus final flush, started at any state, agrees with
the spec's recursion started from that state's components. -/
theorem foldl_segStep_spec (maxWords gapMs : ℕ) (ws : List WordSpan) :
    ∀ s : SegState,
      (if (ws.foldl (segStep maxWords gapMs) s).line = []
        then (ws.foldl (segStep maxWords gapMs) s).out
        else (ws.foldl (segStep maxWords gapMs) s).out
          ++ [mkLine (ws.foldl (segStep maxWords gapMs) s)]) =
      s.out ++ segSpecLoop maxWords gapMs s.line s.line_index
        s.line_start_time s.line_end_time ws := by
  induction ws with
  | nil =>
    intro s
    by_cases h : s.line = [] <;> simp [segSpecLoop, h, mkLine]
  | cons w rest ih =>
    intro s
    rw [List.foldl_cons]
    by_cases h : flushCond maxWords gapMs s w
    · rw [show segStep maxWords gapMs s w =
          ⟨[w], s.line_index + 1, w.start_ms, w.end_ms, s.out ++ [mkLine s]⟩ from
          if_pos h, ih]
      have hc : s.line.length = maxWords ∨
          (s.line ≠ [] ∧ (gapMs : ℤ) ≤ (w.start_ms : ℤ) - (s.line_end_time : ℤ)) := h
      simp [segSpecLoop, if_pos hc, mkLine]
    · rw [show segStep maxWords gapMs s w =
          { s with line := s.line ++ [w], line_end_time := w.end_ms } from
          if_neg h, ih]
      have hc : ¬(s.line.length = maxWords ∨
          (s.line ≠ [] ∧ (gapMs : ℤ) ≤ (w.start_ms : ℤ) - (s.line_end_time : ℤ))) := h
      simp [segSpecLoop, if_neg hc]

/-- C1: for every input word stream, the segmenter flushes the
accumulator before appending a word exactly when the accumulator already
holds exactly `max_words_per_line` (default 12) words or when it is
non-empty and `word.start_ms - line_end_ms ≥ max_gap_ms` (default 500,
strict `≥`); after exhaustion a non-empty accumulator is emitted as one
final line, and an empty stream yields no lines: the code's segmentation
loop coincides with the spec's flush-rule recursion on every input and
every configuration, and the defaults are 12 and 500. -/
theorem C1_segment_flush_rule :
    (∀ maxWords gapMs (ws : List WordSpan),
        segment maxWords gapMs ws = segmentSpec maxWords gapMs ws) ∧
    MAX_NUM_WORDS_IN_LINE = 12 ∧ LINE_INTERVAL = 500 ∧
    ∀ maxWords gapMs, segment maxWords gapMs ([] : List WordSpan) = [] := by
  refine ⟨fun maxWords gapMs ws => ?_, rfl, rfl, fun _ _ => rfl⟩
  have h := foldl_segStep_spec maxWords gapMs ws initSegState
  simpa [segment, segLoop, segmentSpec, initSegState] using h

/-! ### Index bookkeeping -/

theorem segStep_invIdx (maxWords gapMs : ℕ) (s : SegState) (w : WordSpan)
    (h : SegInvIdx s) : SegInvIdx (segStep maxWords gapMs s w) := by
  obtain ⟨h1, h2⟩ := h
  unfold segStep
  by_cases hc : flushCond maxWords gapMs s w
  · rw [if_pos hc]
    refine ⟨by simp [h1], ?_⟩
    simp only [List.map_append, List.length_append]
    simp [h2, mkLine, h1, List.range'_1_concat, Nat.add_comm]
  · rw [if_neg hc]; exact ⟨h1, h2⟩

theorem foldl_segStep_invIdx (maxWords gapMs : ℕ) (ws : List WordSpan) :
    ∀ s : SegState, SegInvIdx s →
      SegInvIdx (ws.foldl (segStep maxWords gapMs) s) := by
  induction ws with
  | nil => exact fun s h => h
  | cons w rest ih =>
    intro s h
    rw [List.foldl_cons]
    exact ih _ (segStep_invIdx maxWords gapMs s w h)

theorem segLoop_invIdx (maxWords gapMs : ℕ) (ws : List WordSpan) :
    SegInvIdx (segLoop maxWords gapMs ws) :=
  foldl_segStep_invIdx maxWords gapMs ws initSegState ⟨rfl, rfl⟩

theorem segStep_line_ne_nil (maxWords gapMs : ℕ) (s : SegState) (w : WordSpan) :
    (segStep maxWords gapMs s w).line ≠ [] := by
  unfold segStep; split <;> simp

theorem foldl_segStep_line_ne_nil (maxWords gapMs : ℕ) (ws : List WordSpan) :
    ∀ s : SegState, s.line ≠ [] →
      (ws.foldl (segStep maxWords gapMs) s).line ≠ [] := by
  induction ws with
  | nil => exact fun s h => h
  | cons w rest ih =>
    intro s h
    rw [List.foldl_cons]
    exact ih _ (segStep_line_ne_nil maxWords gapMs s w)

theorem segment_ne_nil (maxWords gapMs : ℕ) (ws : List WordSpan) (h : ws ≠ []) :
    segment maxWords gapMs ws ≠ [] := by
  obtain ⟨w, rest, rfl⟩ := List.exists_cons_of_ne_nil h
  have hline : ((w :: rest).foldl (segStep maxWords gapMs) initSegState).line ≠ [] := by
    rw [List.foldl_cons]
    exact foldl_segStep_line_ne_nil maxWords gapMs rest _
      (segStep_line_ne_nil maxWords gapMs initSegState w)
  unfold segment segLoop
  rw [if_neg hline]
  simp

/-- C8: for every word stream (in particular every non-empty one), the
indices of the emitted SubtitleLines are exactly `1..N` in order —
starting at 1, strictly increasing by 1, with no gaps or repeats — and a
non-empty stream emits at least one line. -/
theorem C8_indices_one_to_n (maxWords gapMs : ℕ) (ws : List WordSpan) :
    (segment maxWords gapMs ws).map SubtitleLine.index =
      List.range' 1 (segment maxWords gapMs ws).length ∧
    (ws ≠ [] → 1 ≤ (segment maxWords gapMs ws).length) := by
  constructor
  · obtain ⟨h1, h2⟩ := segLoop_invIdx maxWords gapMs ws
    unfold segment
    by_cases h0 : (segLoop maxWords gapMs ws).line = []
    · simpa [h0] using h2
    · rw [if_neg h0]
      simp only [List.map_append, List.length_append]
      simp [h2, mkLine, h1, List.range'_1_concat, Nat.add_comm]
  · intro h
    have := segment_ne_nil maxWords gapMs ws h
    exact Nat.one_le_iff_ne_zero.mpr (by simpa [List.length_eq_zero] using this)

/-- C8 witness at a concrete two-line stream. -/
theorem C8_indices_one_to_n_witness :
    (segment 12 500 [⟨"a", 0, 100⟩, ⟨"b", 900, 1000⟩]).map SubtitleLine.index =
      List.range' 1 (segment 12 500 [⟨"a", 0, 100⟩, ⟨"b", 900, 1000⟩]).length ∧
    1 ≤ (segment 12 500 [⟨"a", 0, 100⟩, ⟨"b", 900, 1000⟩]).length :=
  ⟨(C8_indices_one_to_n 12 500 _).1,
    (C8_indices_one_to_n 12 500 _).2 (by decide)⟩


theorem segStep_invMain (maxWords gapMs : ℕ) (hm : 1 ≤ maxWords)
    (s : SegState) (w : WordSpan) (hIdx : SegInvIdx s) (h : SegInvMain maxWords s) :
    SegInvMain maxWords (segStep maxWords gapMs s w) := by
  obtain ⟨hEnd, hStart1, hStartN, hLen, hOut⟩ := h
  unfold segStep
  by_cases hc : flushCond maxWords gapMs s w
  · rw [if_pos hc]
    have hne : s.line ≠ [] := by
      rcases hc with hcnt | ⟨hne, _⟩
      · intro h0; rw [h0] at hcnt; simp at hcnt; omega
      · exact hne
    refine ⟨by simp, ?_, by simp, by simpa using hm, ?_⟩
    · intro h1
      simp only at h1
      have h2 := hIdx.1
      omega
    · intro l hl
      simp only [List.mem_append, List.mem_singleton] at hl
      rcases hl with hl | rfl
      · exact hOut l hl
      · exact ⟨hne, hLen, hEnd hne, hStart1, hStartN⟩
  · rw [if_neg hc]
    have hcnt : s.line.length ≠ maxWords := fun h => hc (Or.inl h)
    refine ⟨?_, hStart1, ?_, ?_, hOut⟩
    · intro _
      simp [List.getLast?_concat]
    · intro h1
      simp only at h1
      have hprev := hStartN h1
      obtain ⟨y, hy, hys⟩ := Option.map_eq_some'.mp hprev
      simp only
      simp [List.head?_append, hy, hys]
    · simp only [List.length_append, List.length_singleton]
      omega

theorem foldl_segStep_invMain (maxWords gapMs : ℕ) (hm : 1 ≤ maxWords)
    (ws : List WordSpan) :
    ∀ s : SegState, SegInvIdx s → SegInvMain maxWords s →
      SegInvMain maxWords (ws.foldl (segStep maxWords gapMs) s) := by
  induction ws with
  | nil => exact fun s _ h => h
  | cons w rest ih =>
    intro s hIdx h
    rw [List.foldl_cons]
    exact ih _ (segStep_invIdx maxWords gapMs s w hIdx)
      (segStep_invMain maxWords gapMs hm s w hIdx h)

theorem segment_lineOK (maxWords gapMs : ℕ) (hm : 1 ≤ maxWords)
    (ws : List WordSpan) : ∀ l ∈ segment maxWords gapMs ws, LineOK maxWords l := by
  have hMain := foldl_segStep_invMain maxWords gapMs hm ws initSegState
    ⟨rfl, rfl⟩
    ⟨by simp [initSegState], fun _ => rfl, by simp [initSegState],
      by simp [initSegState], by simp [initSegState]⟩
  obtain ⟨hEnd, hStart1, hStartN, hLen, hOut⟩ := hMain
  intro l hl
  unfold segment at hl
  by_cases h0 : (segLoop maxWords gapMs ws).line = []
  · rw [if_pos h0] at hl
    exact hOut l hl
  · rw [if_neg h0] at hl
    simp only [List.mem_append, List.mem_singleton] at hl
    rcases hl with hl | rfl
    · exact hOut l hl
    · exact ⟨h0, hLen, hEnd h0, hStart1, hStartN⟩

/-! ### Time-format lemmas -/

theorem decDigitsGo_small (fuel n : ℕ) (h : n < 10) : decDigitsGo fuel n = [n] := by
  cases fuel with
  | zero => simp [decDigitsGo, Nat.mod_eq_of_lt h]
  | succ f => simp [decDigitsGo, h]

theorem decDigitsGo_two (fuel v : ℕ) (hf : 1 ≤ fuel) (h1 : 10 ≤ v) (h2 : v < 100) :
    decDigitsGo fuel v = [v / 10, v % 10] := by
  obtain ⟨f, rfl⟩ : ∃ f, fuel = f + 1 := ⟨fuel - 1, by omega⟩
  rw [decDigitsGo]
  rw [if_neg (by omega)]
  rw [decDigitsGo_small f (v / 10) (by omega)]
  simp

theorem decDigits_len_le_two (n : ℕ) (h : n < 100) : (decDigits n).length ≤ 2 := by
  by_cases h1 : n < 10
  · rw [decDigits, decDigitsGo_small n n h1]; simp
  · rw [decDigits, decDigitsGo_two n n (by omega) (by omega) h]; simp

theorem decDigits_len_le_three (n : ℕ) (h : n < 1000) : (decDigits n).length ≤ 3 := by
  by_cases h2 : n < 100
  · have := decDigits_len_le_two n h2; omega
  · obtain ⟨m, rfl⟩ : ∃ m, n = m + 1 := ⟨n - 1, by omega⟩
    rw [decDigits, decDigitsGo]
    rw [if_neg (by omega)]
    rw [decDigitsGo_two m ((m + 1) / 10) (by omega) (by omega) (by omega)]
    simp

theorem decDigits_ne_nil (n : ℕ) : decDigits n ≠ [] := by
  rw [decDigits]
  cases hn : n with
  | zero => simp [decDigitsGo]
  | succ m =>
    rw [decDigitsGo]
    split <;> simp

theorem padNum_length (width n : ℕ) :
    (padNum width n).length = max width ((decDigits n).length) := by
  rw [padNum]
  simp only [String.length_mk, List.length_append, List.length_replicate,
    List.length_map]
  omega

theorem padNum_length_of_le (width n : ℕ)
    (h : (decDigits n).length ≤ width) : (padNum width n).length = width := by
  rw [padNum_length]; omega

theorem formatTime_length (millis : ℕ) (h : millis < 360000000) :
    (formatTime millis).length = 12 := by
  rw [formatTime]
  simp only [String.length_append]
  rw [padNum_length_of_le 2 _ (decDigits_len_le_two _ (by omega)),
    padNum_length_of_le 2 _ (decDigits_len_le_two _ (by omega)),
    padNum_length_of_le 2 _ (decDigits_len_le_two _ (by omega)),
    padNum_length_of_le 3 _ (decDigits_len_le_three _ (by omega))]
  decide



/-! ### Claim theorems about the segmenter's timestamps and line lengths -/

/-- C2 (amended): for every emitted SubtitleLine, its `end_ms` equals the
`end_ms` of the last word it contains, and its `start_ms` equals the
`start_ms` of the first word it contains for every line except the first:
the first emitted line keeps the loop's initial `line_start_time = 0`,
which equals its first word's start only when that word starts at 0. -/
theorem C2_line_timestamps (maxWords gapMs : ℕ) (hm : 1 ≤ maxWords)
    (ws : List WordSpan) :
    ∀ l ∈ segment maxWords gapMs ws,
      (l.words.getLast?).map WordSpan.end_ms = some l.end_ms ∧
      (l.index = 1 → l.start_ms = 0) ∧
      (l.index ≠ 1 → (l.words.head?).map WordSpan.start_ms = some l.start_ms) := by
  intro l hl
  obtain ⟨_, _, hEnd, hS1, hSN⟩ := segment_lineOK maxWords gapMs hm ws l hl
  exact ⟨hEnd, hS1, hSN⟩

/-- C2 witness: the second line of a concrete two-line stream starts at
its first word's start and ends at its last word's end. -/
theorem C2_line_timestamps_witness :
    ((SubtitleLine.mk 2 900 1000 [⟨"b", 900, 1000⟩]).words.getLast?).map
        WordSpan.end_ms = some (SubtitleLine.mk 2 900 1000 [⟨"b", 900, 1000⟩]).end_ms ∧
    ((SubtitleLine.mk 2 900 1000 [⟨"b", 900, 1000⟩]).index = 1 →
      (SubtitleLine.mk 2 900 1000 [⟨"b", 900, 1000⟩]).start_ms = 0) ∧
    ((SubtitleLine.mk 2 900 1000 [⟨"b", 900, 1000⟩]).index ≠ 1 →
      ((SubtitleLine.mk 2 900 1000 [⟨"b", 900, 1000⟩]).words.head?).map
        WordSpan.start_ms = some (SubtitleLine.mk 2 900 1000 [⟨"b", 900, 1000⟩]).start_ms) :=
  C2_line_timestamps 12 500 (by omega) [⟨"a", 0, 100⟩, ⟨"b", 900, 1000⟩]
    (SubtitleLine.mk 2 900 1000 [⟨"b", 900, 1000⟩]) (by decide)

/-- C2 counterexample: a single word starting at 100 ms produces a first
line whose `start_ms` is the initial 0, not the word's 100. -/
theorem C2_first_line_start_counterexample :
    segment 12 500 [⟨"a", 100, 200⟩] = [⟨1, 0, 200, [⟨"a", 100, 200⟩]⟩] ∧
    (0 : ℕ) ≠ 100 := by
  exact ⟨by decide, by omega⟩

/-- C9: every emitted SubtitleLine contains between 1 and
`max_words_per_line` words inclusive; the flush fires exactly when the
count test or the gap test holds, and — mirroring the left-to-right
short-circuit of Python's `or` — the gap reason is only reported when
the count test (evaluated first) failed. -/
theorem C9_line_length_bounds (maxWords gapMs : ℕ) (hm : 1 ≤ maxWords) :
    (∀ ws : List WordSpan, ∀ l ∈ segment maxWords gapMs ws,
        1 ≤ l.words.length ∧ l.words.length ≤ maxWords) ∧
    (∀ (s : SegState) (w : WordSpan),
        (flushReason maxWords gapMs s w).isSome ↔ flushCond maxWords gapMs s w) ∧
    (∀ (s : SegState) (w : WordSpan),
        flushReason maxWords gapMs s w = some FlushReason.gap →
          s.line.length ≠ maxWords) := by
  refine ⟨?_, ?_, ?_⟩
  · intro ws l hl
    obtain ⟨hne, hlen, _⟩ := segment_lineOK maxWords gapMs hm ws l hl
    exact ⟨List.length_pos.mpr hne, hlen⟩
  · intro s w
    unfold flushReason flushCond
    by_cases h1 : s.line.length = maxWords
    · simp [h1]
    · by_cases h2 : s.line ≠ [] ∧
        (gapMs : ℤ) ≤ (w.start_ms : ℤ) - (s.line_end_time : ℤ)
      · simp [h1, h2]
      · simp [h1, h2]
  · intro s w
    unfold flushReason
    split_ifs with h1 h2
    · intro heq; simp at heq
    · intro _; exact h1
    · intro heq; simp at heq

/-- C9 witness: the single line of a concrete one-word stream has
between 1 and 12 words. -/
theorem C9_line_length_bounds_witness :
    1 ≤ (SubtitleLine.mk 1 0 100 [⟨"a", 0, 100⟩]).words.length ∧
    (SubtitleLine.mk 1 0 100 [⟨"a", 0, 100⟩]).words.length ≤ 12 :=
  (C9_line_length_bounds 12 500 (by omega)).1 [⟨"a", 0, 100⟩]
    (SubtitleLine.mk 1 0 100 [⟨"a", 0, 100⟩]) (by decide)

/-! ### Claim theorems about the time formatter -/

/-- C6 (amended): the formatter computes hours, minutes, seconds and
milliseconds by integer division/modulo against 3600000, 60000 and 1000
and zero-pads each field (two digits for h/m/s, three for ms); the
result is the fixed-width `HH:MM:SS,mmm` (12 characters) for all inputs
below 100 hours (360000000 ms) — above that the zero-padded hour field
grows beyond two digits — and `format(0) = "00:00:00,000"`,
`format(3661001) = "01:01:01,001"`, `format(59999) = "00:00:59,999"`. -/
theorem C6_formatTime_fixed_width :
    (∀ millis : ℕ, millis < 360000000 → (formatTime millis).length = 12) ∧
    formatTime 0 = "00:00:00,000" ∧
    formatTime 3661001 = "01:01:01,001" ∧
    formatTime 59999 = "00:00:59,999" ∧
    (∀ millis : ℕ, formatTime millis =
      padNum 2 (millis / 3600000) ++ ":" ++ padNum 2 (millis / 60000 % 60) ++ ":" ++
      padNum 2 (millis / 1000 % 60) ++ "," ++ padNum 3 (millis % 1000)) :=
  ⟨formatTime_length, by decide, by decide, by decide, fun _ => rfl⟩

/-- C6 witness: a concrete input below 100 hours formats to 12 characters. -/
theorem C6_formatTime_fixed_width_witness : (formatTime 3661001).length = 12 :=
  C6_formatTime_fixed_width.1 3661001 (by omega)

/-- C6 counterexample: at 100 hours the hour field needs three digits,
so the output is 13 characters and not of the fixed-width
`HH:MM:SS,mmm` form with two-digit hours. -/
theorem C6_formatTime_counterexample :
    formatTime 360000000 = "100:00:00,000" ∧ (formatTime 360000000).length ≠ 12 := by
  exact ⟨by decide, by decide⟩

/-! ### Upload and polling event lemmas -/

theorem uploadLoopGo_done (fuel chunkSize total bytes : ℕ) (h : ¬ bytes < total) :
    uploadLoopGo fuel chunkSize total bytes = [] := by
  cases fuel <;> simp [uploadLoopGo, h]

theorem uploadLoopGo_step (fuel chunkSize total bytes : ℕ) (h : bytes < total) :
    uploadLoopGo (fuel + 1) chunkSize total bytes =
      ((min (bytes + chunkSize) total : ℕ) : ℚ) / (total : ℚ) ::
        uploadLoopGo fuel chunkSize total (min (bytes + chunkSize) total) := by
  rw [uploadLoopGo, if_pos h]

theorem uploadLoopGo_mem_ratio :
    ∀ (fuel chunkSize total bytes : ℕ), ∀ q ∈ uploadLoopGo fuel chunkSize total bytes,
      ∃ b : ℕ, b ≤ total ∧ q = (b : ℚ) / (total : ℚ) := by
  intro fuel
  induction fuel with
  | zero => intro _ _ _ q hq; simp [uploadLoopGo] at hq
  | succ f ih =>
    intro c T bytes q hq
    rw [uploadLoopGo] at hq
    by_cases hb : bytes < T
    · rw [if_pos hb] at hq
      rcases List.mem_cons.mp hq with rfl | hq
      · exact ⟨min (bytes + c) T, Nat.min_le_right _ _, rfl⟩
      · exact ih c T _ q hq
    · rw [if_neg hb] at hq
      simp at hq

theorem uploadLoopGo_mem_bounds :
    ∀ (fuel chunkSize total bytes : ℕ), ∀ q ∈ uploadLoopGo fuel chunkSize total bytes,
      0 ≤ q ∧ q ≤ 1 := by
  intro fuel
  induction fuel with
  | zero => intro _ _ _ q hq; simp [uploadLoopGo] at hq
  | succ f ih =>
    intro c T bytes q hq
    rw [uploadLoopGo] at hq
    by_cases hb : bytes < T
    · rw [if_pos hb] at hq
      rcases List.mem_cons.mp hq with rfl | hq
      · have hT : (0 : ℚ) < (T : ℚ) := by
          have h0 : 0 < T := by omega
          exact_mod_cast h0
        constructor
        · apply div_nonneg <;> positivity
        · rw [div_le_one hT]
          exact_mod_cast Nat.min_le_right (bytes + c) T
      · exact ih c T _ q hq
    · rw [if_neg hb] at hq
      simp at hq

theorem uploadLoopGo_ends_at_one :
    ∀ (fuel chunkSize total bytes : ℕ), 0 < chunkSize → bytes < total →
      total - bytes ≤ fuel →
      ∃ pre, uploadLoopGo fuel chunkSize total bytes = pre ++ [1] := by
  intro fuel
  induction fuel with
  | zero => intro c T b _ h1 h2; omega
  | succ f ih =>
    intro c T bytes hc hb hf
    rw [uploadLoopGo_step f c T bytes hb]
    by_cases hend : min (bytes + c) T < T
    · obtain ⟨pre, hpre⟩ := ih c T (min (bytes + c) T) hc hend (by omega)
      exact ⟨(((min (bytes + c) T : ℕ) : ℚ) / (T : ℚ)) :: pre, by rw [hpre]; simp⟩
    · have hmin : min (bytes + c) T = T := by omega
      have hT : (T : ℚ) ≠ 0 := by
        have h0 : 0 < T := by omega
        exact_mod_cast Nat.pos_iff_ne_zero.mp h0
      refine ⟨[], ?_⟩
      rw [hmin, uploadLoopGo_done f c T T (by omega), div_self hT]
      simp

theorem uploadEvents_head (chunkSize total : ℕ) :
    (uploadEvents chunkSize total).head? = some ("upload", 0) := rfl

theorem uploadEvents_getLast (chunkSize total : ℕ) :
    (uploadEvents chunkSize total).getLast? = some ("upload", 1) := by
  rw [uploadEvents, List.getLast?_concat]

theorem uploadEvents_mem (chunkSize total : ℕ) :
    ∀ e ∈ uploadEvents chunkSize total, e.1 = "upload" ∧ 0 ≤ e.2 ∧ e.2 ≤ 1 := by
  intro e he
  rw [uploadEvents] at he
  rcases List.mem_cons.mp he with rfl | he
  · exact ⟨rfl, le_refl 0, by norm_num⟩
  · rcases List.mem_append.mp he with he | he
    · obtain ⟨q, hq, rfl⟩ := List.mem_map.mp he
      exact ⟨rfl, uploadLoopGo_mem_bounds total chunkSize total 0 q hq⟩
    · rcases List.mem_singleton.mp he with rfl
      exact ⟨rfl, by norm_num, le_refl 1⟩

theorem transcribeEvents_mem (percents : List ℤ) :
    ∀ e ∈ transcribeEvents percents,
      e.1 = "transcribe" ∧ ∃ p ∈ percents, e.2 = (p : ℚ) / 100 := by
  intro e he
  rw [transcribeEvents, List.mem_map] at he
  obtain ⟨p, hp, hpe⟩ := he
  rw [← hpe]
  exact ⟨rfl, p, hp, rfl⟩

/-! ### Claim theorems about progress reporting -/

/-- C3 (amended): the upload phase's event sequence starts exactly at
fraction 0 and ends exactly at fraction 1 before the pipeline moves on;
the transcribe phase forwards each polled `progress_percent/100`
verbatim, so its sequence ends with the last percent polled before
`done()` turned true — which need not be 1 — and the phase completes
regardless. -/
theorem C3_phase_progress_boundaries :
    (∀ chunkSize total : ℕ,
      (uploadEvents chunkSize total).head? = some ("upload", 0) ∧
      (uploadEvents chunkSize total).getLast? = some ("upload", 1)) ∧
    (∀ (percents : List ℤ) (p : ℤ), percents.getLast? = some p →
      (transcribeEvents percents).getLast? = some ("transcribe", (p : ℚ) / 100)) := by
  refine ⟨fun c T => ⟨uploadEvents_head c T, uploadEvents_getLast c T⟩, ?_⟩
  intro percents p hp
  rw [transcribeEvents, List.getLast?_map, hp]
  rfl

/-- C3 witness: for an operation polled once at 50 percent, the
transcribe sequence ends at 50/100. -/
theorem C3_phase_progress_boundaries_witness :
    (transcribeEvents [50]).getLast? = some ("transcribe", ((50 : ℤ) : ℚ) / 100) :=
  C3_phase_progress_boundaries.2 [50] 50 rfl

/-- C3 counterexample: an operation that reports 50 percent on its only
poll and then completes yields a non-empty transcribe sequence whose
last fraction is 1/2, not 1 — the transcribe phase does not end at 1. -/
theorem C3_transcribe_not_ending_at_one :
    transcribeEvents [50] ≠ [] ∧
    (transcribeEvents [50]).getLast? ≠ some ("transcribe", (1 : ℚ)) := by
  constructor
  · simp [transcribeEvents]
  · simp only [transcribeEvents, List.map_cons, List.map_nil,
      List.getLast?_singleton, ne_eq, Option.some.injEq, Prod.mk.injEq]
    intro h
    have := h.2
    norm_num at this

/-- C5 (amended): during a chunked upload of a non-empty source the
tracker emits `(upload, 0.0)` before the first chunk, emits
`bytes_transferred/total_bytes` after each transmitted chunk, and after
the loop emits one final explicit `(upload, 1.0)`; since the event after
the last chunk already carries fraction `total/total = 1.0`, exactly one
further upload event (the explicit completion event, itself 1.0) is
emitted after the fraction first reaches 1.0, so the sequence ends with
two events equal to `(upload, 1.0)` and no fraction ever exceeds 1. -/
theorem C5_upload_event_sequence (chunkSize total : ℕ)
    (hc : 0 < chunkSize) (hT : 0 < total) :
    (uploadEvents chunkSize total).head? = some ("upload", 0) ∧
    (∀ q ∈ uploadFracs chunkSize total,
      ∃ b : ℕ, b ≤ total ∧ q = (b : ℚ) / (total : ℚ)) ∧
    (∀ e ∈ uploadEvents chunkSize total, e.2 ≤ 1) ∧
    (∃ pre, uploadEvents chunkSize total = pre ++ [("upload", 1), ("upload", 1)]) := by
  refine ⟨uploadEvents_head chunkSize total, ?_, ?_, ?_⟩
  · exact fun q hq => uploadLoopGo_mem_ratio total chunkSize total 0 q hq
  · exact fun e he => (uploadEvents_mem chunkSize total e he).2.2
  · obtain ⟨pre, hpre⟩ :=
      uploadLoopGo_ends_at_one total chunkSize total 0 hc hT (by omega)
    refine ⟨("upload", (0 : ℚ)) :: pre.map (fun q => ("upload", q)), ?_⟩
    rw [uploadEvents, uploadFracs, hpre]
    simp

/-- C5 witness: the head event of a concrete two-chunk upload is
`(upload, 0)`. -/
theorem C5_upload_event_sequence_witness :
    (uploadEvents 1 2).head? = some ("upload", 0) :=
  (C5_upload_event_sequence 1 2 (by omega) (by omega)).1

/-- C5 counterexample: a 100-byte source uploaded in one 262144-byte
chunk produces the event sequence `[(upload, 0), (upload, 1), (upload, 1)]`:
the after-chunk event already reaches fraction 1.0 and one more upload
event is still emitted after it, contradicting the claim that no upload
event is emitted after the fraction reaches 1.0. -/
theorem C5_event_after_one_counterexample :
    uploadEvents UPLOAD_CHUNK_SIZE 100 =
      [("upload", 0), ("upload", 1), ("upload", 1)] := by
  have h1 : uploadFracs UPLOAD_CHUNK_SIZE 100 = [1] := by
    rw [uploadFracs]
    rw [show (100 : ℕ) = 99 + 1 from rfl]
    rw [uploadLoopGo_step 99 UPLOAD_CHUNK_SIZE (99 + 1) 0 (by omega)]
    rw [show min (0 + UPLOAD_CHUNK_SIZE) (99 + 1) = 99 + 1 by
      norm_num [UPLOAD_CHUNK_SIZE]]
    rw [uploadLoopGo_done 99 UPLOAD_CHUNK_SIZE (99 + 1) (99 + 1) (by omega)]
    norm_num
  rw [uploadEvents, h1]
  rfl

/-! ### Pipeline lemmas -/

theorem mem_map_progress {ph : String} {f : ℚ} {evs : List ProgressEvent} :
    PipeAction.progress ph f ∈ evs.map (fun e => PipeAction.progress e.1 e.2) ↔
      (ph, f) ∈ evs := by
  rw [List.mem_map]
  constructor
  · rintro ⟨⟨p, q⟩, he, heq⟩
    injection heq with h1 h2
    rw [← h1, ← h2]
    exact he
  · intro h
    exact ⟨(ph, f), h, rfl⟩

theorem transcribeRun_progress_mem (sourceExists : Bool) (chunkSize totalBytes : ℕ)
    (op : Operation) (ph : String) (f : ℚ)
    (h : PipeAction.progress ph f ∈
      (transcribeRun sourceExists chunkSize totalBytes op).1) :
    (ph, f) ∈ uploadEvents chunkSize totalBytes ∨
      (ph, f) ∈ transcribeEvents op.percents := by
  cases sourceExists with
  | false => simp [transcribeRun] at h
  | true =>
    rcases hr : op.result with _ | words <;>
      simp only [transcribeRun, hr, if_true, List.cons_append, List.append_assoc,
        List.mem_cons, List.mem_append, List.mem_singleton] at h <;>
      rw [mem_map_progress, mem_map_progress] at h <;>
      rcases h with h | h | h | h | h | h <;>
      first
        | exact Or.inl h
        | exact Or.inr h
        | exact absurd h (by simp)

/-- C7 (amended): every progress-callback invocation in a `transcribe`
run carries a phase in `{"upload", "transcribe"}`; every upload fraction
lies in [0,1]; every transcribe fraction is some reported
`progress_percent/100` forwarded verbatim without clamping, so all
fractions lie in [0,1] exactly when every reported percent lies in
[0,100] — an engine reporting a percent above 100 yields a fraction
above 1. -/
theorem C7_progress_callback_values (sourceExists : Bool)
    (chunkSize totalBytes : ℕ) (op : Operation) :
    (∀ (ph : String) (f : ℚ),
      PipeAction.progress ph f ∈
          (transcribeRun sourceExists chunkSize totalBytes op).1 →
        (ph = "upload" ∨ ph = "transcribe") ∧
        (ph = "upload" → 0 ≤ f ∧ f ≤ 1) ∧
        (ph = "transcribe" → ∃ p ∈ op.percents, f = (p : ℚ) / 100)) ∧
    ((∀ p ∈ op.percents, (0 : ℤ) ≤ p ∧ p ≤ 100) →
      ∀ (ph : String) (f : ℚ),
        PipeAction.progress ph f ∈
            (transcribeRun sourceExists chunkSize totalBytes op).1 →
          0 ≤ f ∧ f ≤ 1) := by
  constructor
  · intro ph f h
    rcases transcribeRun_progress_mem sourceExists chunkSize totalBytes op ph f h
      with hm | hm
    · obtain ⟨h1, h2⟩ := uploadEvents_mem chunkSize totalBytes (ph, f) hm
      have h1' : ph = "upload" := h1
      have h2' : 0 ≤ f ∧ f ≤ 1 := h2
      refine ⟨Or.inl h1', fun _ => h2', fun hph => ?_⟩
      rw [h1'] at hph
      exact absurd hph (by decide)
    · obtain ⟨h1, p, hp, h2⟩ := transcribeEvents_mem op.percents (ph, f) hm
      have h1' : ph = "transcribe" := h1
      have h2' : f = (p : ℚ) / 100 := h2
      refine ⟨Or.inr h1', fun hph => ?_, fun _ => ⟨p, hp, h2'⟩⟩
      rw [h1'] at hph
      exact absurd hph (by decide)
  · intro hb ph f h
    rcases transcribeRun_progress_mem sourceExists chunkSize totalBytes op ph f h
      with hm | hm
    · exact (uploadEvents_mem chunkSize totalBytes (ph, f) hm).2
    · obtain ⟨_, p, hp, h2⟩ := transcribeEvents_mem op.percents (ph, f) hm
      obtain ⟨hp0, hp100⟩ := hb p hp
      rw [show f = (p : ℚ) / 100 from h2]
      constructor
      · apply div_nonneg _ (by norm_num)
        exact_mod_cast hp0
      · rw [div_le_one (by norm_num)]
        exact_mod_cast hp100

/-- C7 witness: in a concrete run polled once at 50 percent, the
forwarded fraction 50/100 lies in [0,1]. -/
theorem C7_progress_callback_values_witness :
    0 ≤ ((50 : ℤ) : ℚ) / 100 ∧ ((50 : ℤ) : ℚ) / 100 ≤ 1 :=
  (C7_progress_callback_values true 1 2 ⟨[50], some []⟩).2 (by decide)
    "transcribe" (((50 : ℤ) : ℚ) / 100)
    (by simp [transcribeRun, transcribeEvents])

/-- C7 counterexample: an engine reporting `progress_percent = 150` on a
poll makes the pipeline invoke the callback with fraction 150/100 = 3/2,
which exceeds 1 — the forwarded fraction is not clamped to [0,1]. -/
theorem C7_fraction_above_one_counterexample :
    (PipeAction.progress "transcribe" (((150 : ℤ) : ℚ) / 100)) ∈
      (transcribeRun true UPLOAD_CHUNK_SIZE 100 ⟨[150], some []⟩).1 ∧
    ¬(((150 : ℤ) : ℚ) / 100 ≤ 1) := by
  constructor
  · simp [transcribeRun, transcribeEvents]
  · norm_num


/-- C4 (amended): if the remote recognition operation reports failure,
the call fails with a recognition error after polling stops and no
subtitle line is written — but the remote blob IS deleted on this path:
`blob.delete()` (line 93) runs right after the polling loop, before
`operation.result()` (line 99) raises, so cleanup is sequenced after
polling completion rather than after successful result retrieval and the
uploaded storage object is not leaked. -/
theorem C4_failure_after_cleanup (chunkSize totalBytes : ℕ) (op : Operation)
    (h : op.result = none) :
    (transcribeRun true chunkSize totalBytes op).2 =
      some TranscribeError.recognitionFailure ∧
    PipeAction.deleteBlob ∈ (transcribeRun true chunkSize totalBytes op).1 ∧
    ∀ l : SubtitleLine,
      PipeAction.writeLine l ∉ (transcribeRun true chunkSize totalBytes op).1 := by
  refine ⟨by simp [transcribeRun, h], by simp [transcribeRun, h], ?_⟩
  intro l
  simp [transcribeRun, h]

/-- C4 witness: a concrete failed operation yields the recognition error
and a trace containing the blob deletion. -/
theorem C4_failure_after_cleanup_witness :
    (transcribeRun true 1 1 ⟨[], none⟩).2 =
      some TranscribeError.recognitionFailure ∧
    PipeAction.deleteBlob ∈ (transcribeRun true 1 1 ⟨[], none⟩).1 :=
  ⟨(C4_failure_after_cleanup 1 1 ⟨[], none⟩ rfl).1,
    (C4_failure_after_cleanup 1 1 ⟨[], none⟩ rfl).2.1⟩

/-- C4 counterexample: in a concrete run whose operation fails, the
trace does contain `deleteBlob` alongside the recognition error,
refuting the claim that the remote blob is not deleted on the failure
path. -/
theorem C4_blob_deleted_on_failure_counterexample :
    (transcribeRun true UPLOAD_CHUNK_SIZE 100 ⟨[], none⟩).2 =
      some TranscribeError.recognitionFailure ∧
    PipeAction.deleteBlob ∈ (transcribeRun true UPLOAD_CHUNK_SIZE 100 ⟨[], none⟩).1 := by
  constructor
  · simp [transcribeRun]
  · simp [transcribeRun]

/-- C10: if the source audio path does not exist, `transcribe` raises an
invalid-input error (`FileNotFoundError` from `open`) before any remote
call — the trace is empty, so the upload is never initiated, no
recognition request is made, and the progress callback is never
invoked. -/
theorem C10_missing_source_fails_early (chunkSize totalBytes : ℕ) (op : Operation) :
    transcribeRun false chunkSize totalBytes op =
      ([], some TranscribeError.invalidInput) ∧
    PipeAction.initiateUpload ∉ (transcribeRun false chunkSize totalBytes op).1 ∧
    PipeAction.submitRecognition ∉ (transcribeRun false chunkSize totalBytes op).1 ∧
    ∀ (ph : String) (f : ℚ),
      PipeAction.progress ph f ∉ (transcribeRun false chunkSize totalBytes op).1 := by
  refine ⟨rfl, by simp [transcribeRun], by simp [transcribeRun], ?_⟩
  intro ph f
  simp [transcribeRun]


/-- C1 witness: the code segmentation and the spec segmentation agree on
a concrete three-word stream with one gap-induced split. -/
theorem C1_segment_flush_rule_witness :
    segment 12 500 [⟨"Hello", 0, 300⟩, ⟨"world", 350, 700⟩, ⟨"foo", 2000, 2300⟩] =
      segmentSpec 12 500 [⟨"Hello", 0, 300⟩, ⟨"world", 350, 700⟩, ⟨"foo", 2000, 2300⟩] :=
  C1_segment_flush_rule.1 12 500
    [⟨"Hello", 0, 300⟩, ⟨"world", 350, 700⟩, ⟨"foo", 2000, 2300⟩]

/-- C10 witness: a concrete call with a missing source produces the
empty trace and the invalid-input error. -/
theorem C10_missing_source_fails_early_witness :
    transcribeRun false 1 1 ⟨[], none⟩ = ([], some TranscribeError.invalidInput) :=
  (C10_missing_source_fails_early 1 1 ⟨[], none⟩).1

end AudioTranscriber
